import Mathlib

/-!
Verification development for the TicketNow terminal repository.

The embedding models the core state of the Django application: the `EntryLog`
table, per-vehicle wallet balances, and the `SystemSettings` values the gate
logic reads.  Money (2-decimal `DecimalField`s) is modeled as an integer number
of currency sub-units, and instants/durations as integers in one abstract time
unit: every concrete execution of the code (decimal amounts, integer-minute
`timedelta`s against arbitrary-resolution timestamps) embeds into `ℤ` by
scaling with a common denominator, and all durations and amounts below range
over all of `ℤ`, so the scaled images are covered.
-/

namespace TicketNow

/-- Status values for an `EntryLog` row (`terminal/models.py`, `STATUS_CHOICES`). -/
inductive LogStatus
  | success
  | failed
  | insufficient
  | invalid
  deriving DecidableEq

/-- One row of the `EntryLog` table (`terminal/models.py`).  `logId` models the
auto primary key, `createdAt` the `auto_now_add` timestamp, `isActive` the
`is_active` flag whose model default is `True`, and `departedAt` the nullable
`departed_at` column. -/
structure EntryLog where
  logId : ℕ
  vehicle : ℕ
  staff : Option ℕ
  feeCharged : ℤ
  status : LogStatus
  message : String
  createdAt : ℤ
  isActive : Bool
  departedAt : Option ℤ
  deriving DecidableEq

/-- The `SystemSettings` singleton fields consulted by the gate logic
(`terminal/models.py`).  The two duration fields are expressed in the same time
unit as timestamps (the code stores integer minutes and compares via
`timedelta(minutes=...)`). -/
structure SystemSettings where
  terminal_fee : ℤ
  min_deposit_amount : ℤ
  entry_cooldown_minutes : ℤ
  departure_duration_minutes : ℤ
  deriving DecidableEq

/-- Database state the claims range over: the `EntryLog` table as a list in
insertion order, the wallet balance per vehicle id (`Wallet.balance`; a missing
wallet reads as the model default `0`, exactly what `get_or_create` produces),
and the next auto primary key for new rows. -/
structure DbState where
  logs : List EntryLog
  wallets : ℕ → ℤ
  nextId : ℕ

/-- `DEFAULT_DELETE_AFTER_MINUTES` from `terminal/views.py` (equal to
`PASSENGER_DELETE_AFTER_MINUTES` in `passenger/views.py`). -/
def DEFAULT_DELETE_AFTER_MINUTES : ℤ := 10

/-- Effect of the bulk auto-close `update` on a single row: a row with
`is_active=True` and `created_at <= now - departure_duration` gets
`is_active=False, departed_at=now`; any other row is untouched
(`_apply_auto_close_and_cleanup`, step 1). -/
def closeStep (now departureDuration : ℤ) (l : EntryLog) : EntryLog :=
  if l.isActive = true ∧ l.createdAt ≤ now - departureDuration then
    { l with isActive := false, departedAt := some now }
  else l

/-- Deletion condition of the cleanup step: `created_at < now - delete_after`
and (`is_active=False` or `departed_at` non-null)
(`_apply_auto_close_and_cleanup`, step 2). -/
def pruneCond (now deleteAfter : ℤ) (l : EntryLog) : Bool :=
  decide (l.createdAt < now - deleteAfter) && (!l.isActive || l.departedAt.isSome)

/-- Step 1 of the maintenance pass: the bulk auto-close `update` over the table. -/
def autoClose (now departureDuration : ℤ) (logs : List EntryLog) : List EntryLog :=
  logs.map (closeStep now departureDuration)

/-- Step 2 of the maintenance pass: the bulk `delete` of old departed/non-active
rows. -/
def pruneOld (now deleteAfter : ℤ) (logs : List EntryLog) : List EntryLog :=
  logs.filter (fun l => !pruneCond now deleteAfter l)

/-- `_apply_auto_close_and_cleanup` (`terminal/views.py`) and `_maintenance_task`
(`passenger/views.py`): auto-close overdue active rows, then delete old
departed/non-active rows, in that order. -/
def applyAutoCloseAndCleanup (now departureDuration deleteAfter : ℤ)
    (logs : List EntryLog) : List EntryLog :=
  pruneOld now deleteAfter (autoClose now departureDuration logs)

/-- Structured content of the `JsonResponse` values returned by `qr_scan_entry`:
`departed` and `entered` are the two `status: success` responses, the others the
`status: error` responses, each carrying the reported wallet balance. -/
inductive ScanOutcome
  | invalidToken
  | departed (balance : ℤ)
  | cooldownActive (balance : ℤ)
  | belowMinimum (balance : ℤ)
  | entered (balance : ℤ)
  | insufficientBalance (balance : ℤ)
  deriving DecidableEq

/-- Row filter used by `qr_scan_entry` to find the active log of a vehicle:
`EntryLog.objects.filter(vehicle=vehicle, is_active=True)`. -/
def isActiveFor (v : ℕ) (l : EntryLog) : Bool :=
  l.vehicle == v && l.isActive

/-- Row filter used by the cooldown lookup:
`EntryLog.objects.filter(vehicle=vehicle, status=STATUS_SUCCESS)`. -/
def isSuccessFor (v : ℕ) (l : EntryLog) : Bool :=
  l.vehicle == v && decide (l.status = LogStatus.success)

/-- Accumulator for the newest-first lookup: keep the row with the larger
`created_at` (the earlier one on a tie). -/
def pickLater (acc : Option EntryLog) (l : EntryLog) : Option EntryLog :=
  match acc with
  | none => some l
  | some b => if b.createdAt < l.createdAt then some l else some b

/-- Django `filter(...).first()` under `EntryLog.Meta.ordering = ['-created_at']`:
among rows satisfying `p`, a row with maximal `created_at` (first inserted wins a
tie, a deterministic stand-in for the database's unspecified tie order). -/
def firstByCreatedDesc (p : EntryLog → Bool) (logs : List EntryLog) : Option EntryLog :=
  (logs.filter p).foldl pickLater none

/-- Departure message attached by the exit branch of `qr_scan_entry` (the code
interpolates the license plate; the vehicle id stands in for it here). -/
def departMessage (v : ℕ) : String :=
  "Vehicle " ++ toString v ++ " departed."

/-- Message recorded on a successful entry row. -/
def enterMessage (v : ℕ) : String :=
  "Vehicle " ++ toString v ++ " entered terminal."

/-- Message recorded on an insufficient-balance row. -/
def insufficientMessage (v : ℕ) : String :=
  "Insufficient balance for " ++ toString v ++ "."

/-- The row update performed by the exit branch (`active_log.save`): the row with
primary key `lid` gets `is_active=False`, `departed_at=now` and the departure
message; every other row is untouched. -/
def setDepartedById (lid : ℕ) (now : ℤ) (msg : String) (logs : List EntryLog) :
    List EntryLog :=
  logs.map fun l =>
    if l.logId == lid then { l with isActive := false, departedAt := some now, message := msg }
    else l

/-- Shape of a row produced by `EntryLog.objects.create` in the entry branch:
neither call passes `is_active` or `departed_at`, so the row carries the model
defaults `is_active=True`, `departed_at=NULL`. -/
def newLogRow (v staffId : ℕ) (fee : ℤ) (st : LogStatus) (msg : String) (now : ℤ)
    (lid : ℕ) : EntryLog :=
  { logId := lid, vehicle := v, staff := some staffId, feeCharged := fee, status := st,
    message := msg, createdAt := now, isActive := true, departedAt := none }

/-- Entry branch of `qr_scan_entry` after the cooldown gate: the minimum-balance
check first, then the fee check with a debit on success.  Both
`EntryLog.objects.create` calls pass no `is_active`, so the created rows carry
the model default `is_active=True`. -/
def entryAttempt (s : SystemSettings) (now : ℤ) (v staffId : ℕ) (st : DbState) :
    DbState × ScanOutcome :=
  if st.wallets v < s.min_deposit_amount then
    (st, .belowMinimum (st.wallets v))
  else if s.terminal_fee ≤ st.wallets v then
    let row := newLogRow v staffId s.terminal_fee .success (enterMessage v) now st.nextId
    ({ logs := st.logs ++ [row],
       wallets := fun w => if w = v then st.wallets v - s.terminal_fee else st.wallets w,
       nextId := st.nextId + 1 },
     .entered (st.wallets v - s.terminal_fee))
  else
    let row := newLogRow v staffId s.terminal_fee .insufficient (insufficientMessage v) now
      st.nextId
    ({ st with logs := st.logs ++ [row], nextId := st.nextId + 1 },
     .insufficientBalance (st.wallets v))

/-- The log table as `qr_scan_entry` sees it after its opening call to
`_apply_auto_close_and_cleanup()` (which uses the admin-configured departure
duration and the default delete window). -/
def scanMaintLogs (s : SystemSettings) (now : ℤ) (st : DbState) : List EntryLog :=
  applyAutoCloseAndCleanup now s.departure_duration_minutes DEFAULT_DELETE_AFTER_MINUTES st.logs

/-- `qr_scan_entry` (`terminal/views.py`), POST path: run maintenance, resolve
the token (`none` models a `qr_value` matching no vehicle), treat a vehicle with
an active log as a departure, otherwise run the entry attempt behind the
cooldown gate. -/
def qr_scan_entry (s : SystemSettings) (now : ℤ) (vehicle : Option ℕ) (staffId : ℕ)
    (st : DbState) : DbState × ScanOutcome :=
  match vehicle with
  | none => ({ st with logs := scanMaintLogs s now st }, .invalidToken)
  | some v =>
    match firstByCreatedDesc (isActiveFor v) (scanMaintLogs s now st) with
    | some activeLog =>
        ({ st with
            logs := setDepartedById activeLog.logId now (departMessage v)
              (scanMaintLogs s now st) },
         .departed (st.wallets v))
    | none =>
        match firstByCreatedDesc (isSuccessFor v) (scanMaintLogs s now st) with
        | some r =>
            if now - r.createdAt < s.entry_cooldown_minutes then
              ({ st with logs := scanMaintLogs s now st }, .cooldownActive (st.wallets v))
            else entryAttempt s now v staffId { st with logs := scanMaintLogs s now st }
        | none => entryAttempt s now v staffId { st with logs := scanMaintLogs s now st }

/-- `Deposit.save` for a new deposit (`vehicles/models.py`): inside one
transaction the row is stored and the wallet balance is atomically incremented
by exactly `amount` (`F('balance') + self.amount`). -/
def depositSave (v : ℕ) (amount : ℤ) (st : DbState) : DbState :=
  { st with wallets := fun w => if w = v then st.wallets w + amount else st.wallets w }

/-- The deposit views (`deposit_menu` POST and `ajax_add_deposit`): an amount
`<= 0` is rejected before any mutation; otherwise the `Deposit` is created,
which credits the wallet. -/
def depositOp (v : ℕ) (amount : ℤ) (st : DbState) : DbState :=
  if amount ≤ 0 then st else depositSave v amount st

/-- `mark_departed` (`terminal/views.py`): the staff override looks up one row by
id among active rows (`get_object_or_404(EntryLog, id=entry_id, is_active=True)`)
and flips it to inactive, stamping `departed_at`; when no such active row exists
(404) nothing changes. -/
def mark_departed (now : ℤ) (entryId : ℕ) (st : DbState) : DbState :=
  { st with
    logs := st.logs.map fun l =>
      if l.logId == entryId && l.isActive then
        { l with isActive := false, departedAt := some now }
      else l }

/-- The operations of the claims' state machine: a QR scan (`qr_scan_entry`,
covering both the entry and the exit interpretation), a staff deposit, the
`mark_departed` staff override, and a standalone maintenance sweep with an
explicit delete window. -/
inductive Op
  | scan (now : ℤ) (vehicle : Option ℕ) (staffId : ℕ)
  | deposit (vehicle : ℕ) (amount : ℤ)
  | markDeparted (now : ℤ) (entryId : ℕ)
  | sweep (now : ℤ) (deleteAfter : ℤ)

/-- One step of the state machine under fixed system settings. -/
def step (s : SystemSettings) (st : DbState) : Op → DbState
  | .scan now vehicle staffId => (qr_scan_entry s now vehicle staffId st).1
  | .deposit v amount => depositOp v amount st
  | .markDeparted now entryId => mark_departed now entryId st
  | .sweep now deleteAfter =>
      { st with
        logs := applyAutoCloseAndCleanup now s.departure_duration_minutes deleteAfter st.logs }

/-- The initial database: no entry logs, every wallet at the default balance `0`. -/
def initState : DbState :=
  { logs := [], wallets := fun _ => 0, nextId := 0 }

/-- Run a sequence of operations from the initial database. -/
def run (s : SystemSettings) (ops : List Op) : DbState :=
  ops.foldl (step s) initState

/-- Number of active rows referencing vehicle `v`. -/
def countActive (v : ℕ) (logs : List EntryLog) : ℕ :=
  (logs.filter (isActiveFor v)).length

theorem foldl_pickLater_isSome (as : List EntryLog) :
    ∀ b : EntryLog, ∃ c, as.foldl pickLater (some b) = some c := by
  induction as with
  | nil => intro b; exact ⟨b, rfl⟩
  | cons a as ih =>
    intro b
    simp only [List.foldl_cons, pickLater]
    split
    · exact ih a
    · exact ih b

theorem firstByCreatedDesc_eq_none_iff (p : EntryLog → Bool) (logs : List EntryLog) :
    firstByCreatedDesc p logs = none ↔ logs.filter p = [] := by
  unfold firstByCreatedDesc
  cases h : logs.filter p with
  | nil => simp
  | cons a as =>
    simp only [List.foldl_cons, pickLater]
    obtain ⟨c, hc⟩ := foldl_pickLater_isSome as a
    simp [hc]

theorem foldl_pickLater_mem (P : EntryLog → Prop) :
    ∀ (as : List EntryLog) (acc : Option EntryLog),
      (∀ b, acc = some b → P b) → (∀ a ∈ as, P a) →
      ∀ c, as.foldl pickLater acc = some c → P c := by
  intro as
  induction as with
  | nil => intro acc hacc _ c hc; exact hacc c hc
  | cons a as ih =>
    intro acc hacc has c hc
    simp only [List.foldl_cons] at hc
    refine ih (pickLater acc a) ?_ (fun x hx => has x (List.mem_cons_of_mem _ hx)) c hc
    intro b hb
    cases acc with
    | none =>
      simp only [pickLater] at hb
      cases hb
      exact has a (List.mem_cons_self a as)
    | some b0 =>
      simp only [pickLater] at hb
      by_cases hlt : b0.createdAt < a.createdAt
      · rw [if_pos hlt] at hb
        cases hb
        exact has a (List.mem_cons_self a as)
      · rw [if_neg hlt] at hb
        cases hb
        exact hacc _ rfl

theorem firstByCreatedDesc_spec (p : EntryLog → Bool) (logs : List EntryLog) (l : EntryLog)
    (h : firstByCreatedDesc p logs = some l) : l ∈ logs ∧ p l = true := by
  have hm : l ∈ logs.filter p := by
    refine foldl_pickLater_mem (fun x => x ∈ logs.filter p) (logs.filter p) none ?_
      (fun a ha => ha) l h
    intro b hb
    cases hb
  exact List.mem_filter.mp hm

theorem countActive_map_le (v : ℕ) (f : EntryLog → EntryLog)
    (hf : ∀ l, isActiveFor v (f l) = true → isActiveFor v l = true)
    (logs : List EntryLog) : countActive v (logs.map f) ≤ countActive v logs := by
  induction logs with
  | nil => simp [countActive]
  | cons a as ih =>
    simp only [countActive, List.map_cons, List.filter_cons] at ih ⊢
    cases h : isActiveFor v a with
    | false =>
      have hfa : isActiveFor v (f a) = false := by
        cases h2 : isActiveFor v (f a) with
        | false => rfl
        | true => rw [hf a h2] at h; simp at h
      simp only [h, hfa, Bool.false_eq_true, if_false]
      exact ih
    | true =>
      cases h2 : isActiveFor v (f a) with
      | false =>
        simp only [h, h2, Bool.false_eq_true, if_false, if_true, List.length_cons]
        exact Nat.le_succ_of_le ih
      | true =>
        simp only [h, h2, if_true, List.length_cons]
        exact Nat.succ_le_succ ih

theorem countActive_pruneOld_le (v : ℕ) (now da : ℤ) (logs : List EntryLog) :
    countActive v (pruneOld now da logs) ≤ countActive v logs := by
  have h : (pruneOld now da logs).Sublist logs := List.filter_sublist logs
  exact (List.Sublist.filter (isActiveFor v) h).length_le

theorem isActiveFor_closeStep (v : ℕ) (now dd : ℤ) (l : EntryLog)
    (h : isActiveFor v (closeStep now dd l) = true) : isActiveFor v l = true := by
  unfold closeStep at h
  split at h
  · simp [isActiveFor] at h
  · exact h

theorem countActive_maintenance_le (v : ℕ) (now dd da : ℤ) (logs : List EntryLog) :
    countActive v (applyAutoCloseAndCleanup now dd da logs) ≤ countActive v logs := by
  calc countActive v (applyAutoCloseAndCleanup now dd da logs)
      ≤ countActive v (autoClose now dd logs) := countActive_pruneOld_le v now da _
    _ ≤ countActive v logs := countActive_map_le v _ (isActiveFor_closeStep v now dd) logs

theorem closeStep_idem (now dd : ℤ) (l : EntryLog) :
    closeStep now dd (closeStep now dd l) = closeStep now dd l := by
  unfold closeStep
  by_cases h : l.isActive = true ∧ l.createdAt ≤ now - dd
  · rw [if_pos h, if_neg]
    rintro ⟨h1, -⟩
    simp at h1
  · rw [if_neg h, if_neg h]

theorem map_fixed_eq_self (f : EntryLog → EntryLog) :
    ∀ X : List EntryLog, (∀ m ∈ X, f m = m) → X.map f = X := by
  intro X
  induction X with
  | nil => intro _; rfl
  | cons a as ih =>
    intro h
    simp only [List.map_cons]
    rw [h a (List.mem_cons_self a as), ih (fun m hm => h m (List.mem_cons_of_mem a hm))]

/-- Claim C9: the maintenance sweep is idempotent — running
`_apply_auto_close_and_cleanup` (auto-close, then prune) twice in immediate
succession with the same `now`, departure duration and delete window produces
exactly the same final set of `EntryLog` rows as running it once. -/
theorem maintenance_sweep_idempotent (now dd da : ℤ) (logs : List EntryLog) :
    applyAutoCloseAndCleanup now dd da (applyAutoCloseAndCleanup now dd da logs) =
      applyAutoCloseAndCleanup now dd da logs := by
  have hfix : ∀ m ∈ applyAutoCloseAndCleanup now dd da logs, closeStep now dd m = m := by
    intro m hm
    have hm2 : m ∈ autoClose now dd logs := (List.mem_filter.mp hm).1
    obtain ⟨l, -, rfl⟩ := List.mem_map.mp hm2
    exact closeStep_idem now dd l
  show pruneOld now da (autoClose now dd (applyAutoCloseAndCleanup now dd da logs)) = _
  rw [show autoClose now dd (applyAutoCloseAndCleanup now dd da logs) =
      applyAutoCloseAndCleanup now dd da logs from map_fixed_eq_self _ _ hfix]
  show List.filter _ (List.filter _ (autoClose now dd logs)) = _
  rw [List.filter_filter]
  simp only [Bool.and_self]
  rfl

theorem closeStep_of_due (now dd : ℤ) (l : EntryLog) (hact : l.isActive = true)
    (hdue : l.createdAt + dd ≤ now) :
    closeStep now dd l = { l with isActive := false, departedAt := some now } := by
  unfold closeStep
  rw [if_pos ⟨hact, by omega⟩]

/-- Claim C8 (amended): in a maintenance sweep at time `now`, every `EntryLog`
with `is_active=true` and `created_at + departure_duration <= now` is set to
`is_active=false, departed_at=now` by the auto-close step; it ends the sweep
with those values when `created_at >= now - delete_after`, while when
`created_at < now - delete_after` the now-inactive row is instead deleted by the
prune step of the same pass, so neither it nor its closed version survives.  The
prune step, applied after auto-close, removes every row satisfying the deletion
condition (older than the delete window and inactive-or-departed). -/
theorem sweep_autoclose_prune_spec (now dd da : ℤ) (logs : List EntryLog) (l : EntryLog)
    (hmem : l ∈ logs) (hact : l.isActive = true) (hdue : l.createdAt + dd ≤ now) :
    (now - da ≤ l.createdAt →
        { l with isActive := false, departedAt := some now } ∈
          applyAutoCloseAndCleanup now dd da logs) ∧
    (l.createdAt < now - da →
        { l with isActive := false, departedAt := some now } ∉
            applyAutoCloseAndCleanup now dd da logs ∧
          l ∉ applyAutoCloseAndCleanup now dd da logs) ∧
    (∀ m ∈ autoClose now dd logs, pruneCond now da m = true →
        m ∉ applyAutoCloseAndCleanup now dd da logs) := by
  have hclose := closeStep_of_due now dd l hact hdue
  have hmap : { l with isActive := false, departedAt := some now } ∈ autoClose now dd logs := by
    unfold autoClose
    exact List.mem_map.mpr ⟨l, hmem, hclose⟩
  refine ⟨?_, ?_, ?_⟩
  · intro hkeep
    have hnot : ¬(l.createdAt < now - da) := not_lt.mpr hkeep
    refine List.mem_filter.mpr ⟨hmap, ?_⟩
    simp [pruneCond, hnot]
  · intro hdel
    constructor
    · intro hin
      have h2 := (List.mem_filter.mp hin).2
      simp [pruneCond, hdel] at h2
    · intro hin
      have h1 := (List.mem_filter.mp hin).1
      obtain ⟨l2, -, heq⟩ := List.mem_map.mp h1
      unfold closeStep at heq
      split at heq
      · have hcon := congrArg EntryLog.isActive heq
        rw [hact] at hcon
        simp at hcon
      · rename_i hn
        cases heq
        exact hn ⟨hact, by omega⟩
  · intro m hm hpc hin
    have h2 := (List.mem_filter.mp hin).2
    rw [hpc] at h2
    simp at h2

/-- One overdue active row, used to exercise the sweep at concrete inputs. -/
def sweepCexRow : EntryLog :=
  { logId := 0, vehicle := 1, staff := none, feeCharged := 50, status := .success,
    message := "", createdAt := 0, isActive := true, departedAt := none }

/-- Claim C8 counterexample: with the source defaults (departure duration 30,
delete window 10), a sweep at minute 31 over a single active row created at
minute 0 leaves the table empty — the row is auto-closed and then deleted in
the same pass, so no row with `is_active=false, departed_at=31` ends the sweep,
contradicting part (1) of the claim as stated. -/
theorem sweep_deletes_overdue_row_cex :
    applyAutoCloseAndCleanup 31 30 10 [sweepCexRow] = [] ∧
    ¬∃ m ∈ applyAutoCloseAndCleanup 31 30 10 [sweepCexRow],
        m.isActive = false ∧ m.departedAt = some 31 := by
  decide

/-- Witness for the amended C8 theorem at a concrete input: with a delete window
of 40 minutes the row closed by the sweep at minute 31 survives the prune step. -/
theorem sweep_autoclose_prune_spec_witness :
    { sweepCexRow with isActive := false, departedAt := some (31 : ℤ) } ∈
      applyAutoCloseAndCleanup 31 30 40 [sweepCexRow] :=
  (sweep_autoclose_prune_spec 31 30 40 [sweepCexRow] sweepCexRow (by decide) (by decide)
    (by decide)).1 (by decide)

theorem countActive_append (v : ℕ) (logs : List EntryLog) (l : EntryLog) :
    countActive v (logs ++ [l]) =
      countActive v logs + (if isActiveFor v l = true then 1 else 0) := by
  simp only [countActive, List.filter_append, List.length_append]
  by_cases h : isActiveFor v l = true
  · simp [h]
  · simp [h]

theorem isActiveFor_newLogRow_ne (w v staffId : ℕ) (fee : ℤ) (stt : LogStatus)
    (msg : String) (now : ℤ) (lid : ℕ) (hw : w ≠ v) :
    isActiveFor w (newLogRow v staffId fee stt msg now lid) = false := by
  have hbe : (v == w) = false := beq_eq_false_iff_ne.mpr (Ne.symm hw)
  simp [isActiveFor, newLogRow, hbe]

theorem entryAttempt_countActive_le (s : SystemSettings) (now : ℤ) (v staffId : ℕ)
    (st : DbState) (h0 : countActive v st.logs = 0) (h : ∀ w, countActive w st.logs ≤ 1) :
    ∀ w, countActive w (entryAttempt s now v staffId st).1.logs ≤ 1 := by
  intro w
  simp only [entryAttempt]
  split
  · exact h w
  · split
    · show countActive w (st.logs ++
          [newLogRow v staffId s.terminal_fee .success (enterMessage v) now st.nextId]) ≤ 1
      rw [countActive_append]
      by_cases hw : w = v
      · subst hw
        rw [h0]
        split <;> simp
      · rw [isActiveFor_newLogRow_ne w v staffId _ _ _ _ _ hw]
        simp only [Bool.false_eq_true, if_false, Nat.add_zero]
        exact h w
    · show countActive w (st.logs ++
          [newLogRow v staffId s.terminal_fee .insufficient (insufficientMessage v) now
            st.nextId]) ≤ 1
      rw [countActive_append]
      by_cases hw : w = v
      · subst hw
        rw [h0]
        split <;> simp
      · rw [isActiveFor_newLogRow_ne w v staffId _ _ _ _ _ hw]
        simp only [Bool.false_eq_true, if_false, Nat.add_zero]
        exact h w

theorem qr_scan_entry_countActive_le (s : SystemSettings) (now : ℤ) (veh : Option ℕ)
    (staffId : ℕ) (st : DbState) (h : ∀ w, countActive w st.logs ≤ 1) :
    ∀ w, countActive w (qr_scan_entry s now veh staffId st).1.logs ≤ 1 := by
  have hm : ∀ w, countActive w (scanMaintLogs s now st) ≤ 1 := fun w =>
    le_trans (countActive_maintenance_le w now s.departure_duration_minutes
      DEFAULT_DELETE_AFTER_MINUTES st.logs) (h w)
  intro w
  cases veh with
  | none => exact hm w
  | some v =>
    simp only [qr_scan_entry]
    cases hact : firstByCreatedDesc (isActiveFor v) (scanMaintLogs s now st) with
    | some a =>
      simp only [hact]
      show countActive w (setDepartedById a.logId now (departMessage v)
        (scanMaintLogs s now st)) ≤ 1
      unfold setDepartedById
      refine le_trans (countActive_map_le w _ ?_ _) (hm w)
      intro l hl
      by_cases hid : (l.logId == a.logId) = true
      · rw [if_pos hid] at hl
        simp [isActiveFor] at hl
      · rw [if_neg hid] at hl
        exact hl
    | none =>
      have h0 : countActive v (scanMaintLogs s now st) = 0 := by
        have he := (firstByCreatedDesc_eq_none_iff _ _).mp hact
        simp [countActive, he]
      cases hrec : firstByCreatedDesc (isSuccessFor v) (scanMaintLogs s now st) with
      | some r =>
        simp only [hact, hrec]
        by_cases hc : now - r.createdAt < s.entry_cooldown_minutes
        · rw [if_pos hc]
          exact hm w
        · rw [if_neg hc]
          exact entryAttempt_countActive_le s now v staffId _ h0 hm w
      | none =>
        simp only [hact, hrec]
        exact entryAttempt_countActive_le s now v staffId _ h0 hm w

theorem step_countActive_le (s : SystemSettings) (st : DbState)
    (h : ∀ w, countActive w st.logs ≤ 1) (op : Op) :
    ∀ w, countActive w (step s st op).logs ≤ 1 := by
  cases op with
  | scan now veh staffId => exact qr_scan_entry_countActive_le s now veh staffId st h
  | deposit v amount =>
    intro w
    have hlogs : (depositOp v amount st).logs = st.logs := by
      unfold depositOp depositSave
      split <;> rfl
    show countActive w (depositOp v amount st).logs ≤ 1
    rw [hlogs]
    exact h w
  | markDeparted now entryId =>
    intro w
    show countActive w ((mark_departed now entryId st).logs) ≤ 1
    unfold mark_departed
    refine le_trans (countActive_map_le w _ ?_ st.logs) (h w)
    intro l hl
    by_cases hc : (l.logId == entryId && l.isActive) = true
    · rw [if_pos hc] at hl
      simp [isActiveFor] at hl
    · rw [if_neg hc] at hl
      exact hl
  | sweep now da =>
    intro w
    exact le_trans (countActive_maintenance_le w now s.departure_duration_minutes da st.logs)
      (h w)

theorem run_countActive_le (s : SystemSettings) (ops : List Op) :
    ∀ w, countActive w (run s ops).logs ≤ 1 := by
  suffices hgen : ∀ st, (∀ w, countActive w st.logs ≤ 1) →
      ∀ w, countActive w (ops.foldl (step s) st).logs ≤ 1 by
    refine hgen initState ?_
    intro w
    simp [initState, countActive]
  induction ops with
  | nil => exact fun st h => h
  | cons op ops ih =>
    intro st h
    exact ih (step s st op) (step_countActive_le s st h op)

/-- Claim C1: for every vehicle and after every sequence of scan, deposit,
staff-override and maintenance operations from the initial database, at most one
`EntryLog` row referencing that vehicle has `is_active=true`: the entry branch
of `qr_scan_entry` creates a row only when the vehicle has no active log, and
every other operation (exit scan, `mark_departed`, auto-close sweep) only flips
existing rows from active to inactive or deletes rows. -/
theorem at_most_one_active_entry_log (s : SystemSettings) (ops : List Op) (v : ℕ) :
    countActive v (run s ops).logs ≤ 1 :=
  run_countActive_le s ops v

theorem entryAttempt_wallets_nonneg (s : SystemSettings) (now : ℤ) (v staffId : ℕ)
    (st : DbState) (h : ∀ w, 0 ≤ st.wallets w) :
    ∀ w, 0 ≤ (entryAttempt s now v staffId st).1.wallets w := by
  intro w
  simp only [entryAttempt]
  split
  · exact h w
  · split
    · rename_i hfee
      show 0 ≤ (if w = v then st.wallets v - s.terminal_fee else st.wallets w)
      split
      · have := h v
        omega
      · exact h w
    · exact h w

theorem qr_scan_entry_wallets_nonneg (s : SystemSettings) (now : ℤ) (veh : Option ℕ)
    (staffId : ℕ) (st : DbState) (h : ∀ w, 0 ≤ st.wallets w) :
    ∀ w, 0 ≤ (qr_scan_entry s now veh staffId st).1.wallets w := by
  intro w
  cases veh with
  | none => exact h w
  | some v =>
    simp only [qr_scan_entry]
    cases hact : firstByCreatedDesc (isActiveFor v) (scanMaintLogs s now st) with
    | some a =>
      simp only [hact]
      exact h w
    | none =>
      cases hrec : firstByCreatedDesc (isSuccessFor v) (scanMaintLogs s now st) with
      | some r =>
        simp only [hact, hrec]
        by_cases hc : now - r.createdAt < s.entry_cooldown_minutes
        · rw [if_pos hc]
          exact h w
        · rw [if_neg hc]
          exact entryAttempt_wallets_nonneg s now v staffId
            { st with logs := scanMaintLogs s now st } h w
      | none =>
        simp only [hact, hrec]
        exact entryAttempt_wallets_nonneg s now v staffId
          { st with logs := scanMaintLogs s now st } h w

theorem step_wallets_nonneg (s : SystemSettings) (st : DbState)
    (h : ∀ w, 0 ≤ st.wallets w) (op : Op) :
    ∀ w, 0 ≤ (step s st op).wallets w := by
  cases op with
  | scan now veh staffId => exact qr_scan_entry_wallets_nonneg s now veh staffId st h
  | deposit v amount =>
    intro w
    show 0 ≤ (depositOp v amount st).wallets w
    unfold depositOp
    split
    · exact h w
    · rename_i hamt
      show 0 ≤ (if w = v then st.wallets w + amount else st.wallets w)
      split
      · have := h w
        omega
      · exact h w
  | markDeparted now entryId =>
    intro w
    exact h w
  | sweep now da =>
    intro w
    exact h w

theorem run_wallets_nonneg (s : SystemSettings) (ops : List Op) :
    ∀ w, 0 ≤ (run s ops).wallets w := by
  suffices hgen : ∀ st, (∀ w, 0 ≤ st.wallets w) →
      ∀ w, 0 ≤ (ops.foldl (step s) st).wallets w by
    exact hgen initState (fun w => le_refl 0)
  induction ops with
  | nil => exact fun st h => h
  | cons op ops ih =>
    intro st h
    exact ih (step s st op) (step_wallets_nonneg s st h op)

/-- Claim C3: after every sequence of deposit and scan (and override/sweep)
operations from the initial database where every wallet starts at balance `0`,
every wallet balance is non-negative: the deposit views reject `amount <= 0`
before any mutation, and the entry fee is debited only when the balance is at
least `terminal_fee`. -/
theorem wallet_balance_nonneg (s : SystemSettings) (ops : List Op) (v : ℕ) :
    0 ≤ (run s ops).wallets v :=
  run_wallets_nonneg s ops v

theorem scan_entry_success_eq (s : SystemSettings) (now : ℤ) (v staffId : ℕ) (st : DbState)
    (hout : firstByCreatedDesc (isActiveFor v) (scanMaintLogs s now st) = none)
    (hcool : ∀ r, firstByCreatedDesc (isSuccessFor v) (scanMaintLogs s now st) = some r →
        ¬(now - r.createdAt < s.entry_cooldown_minutes))
    (hmin : s.min_deposit_amount ≤ st.wallets v)
    (hfee : s.terminal_fee ≤ st.wallets v) :
    qr_scan_entry s now (some v) staffId st =
      ({ logs := scanMaintLogs s now st ++
            [newLogRow v staffId s.terminal_fee .success (enterMessage v) now st.nextId],
         wallets := fun w => if w = v then st.wallets v - s.terminal_fee else st.wallets w,
         nextId := st.nextId + 1 },
       .entered (st.wallets v - s.terminal_fee)) := by
  have hbody : entryAttempt s now v staffId { st with logs := scanMaintLogs s now st } =
      ({ logs := scanMaintLogs s now st ++
            [newLogRow v staffId s.terminal_fee .success (enterMessage v) now st.nextId],
         wallets := fun w => if w = v then st.wallets v - s.terminal_fee else st.wallets w,
         nextId := st.nextId + 1 },
       .entered (st.wallets v - s.terminal_fee)) := by
    simp only [entryAttempt]
    rw [if_neg (not_lt.mpr hmin), if_pos hfee]
  simp only [qr_scan_entry, hout]
  cases hrec : firstByCreatedDesc (isSuccessFor v) (scanMaintLogs s now st) with
  | none => exact hbody
  | some r =>
    simp only [hrec]
    rw [if_neg (hcool r hrec)]
    exact hbody

/-- Claim C4: for every entry scan of a vehicle that (in the state the decision
is made on, i.e. after the opening maintenance pass) has no active log and is
past the cooldown of its most recent successful entry, with balance at least
`min_deposit_amount` and at least `terminal_fee`, `qr_scan_entry` debits exactly
`terminal_fee` from the wallet, appends exactly one new `EntryLog` with
`status=success`, `is_active=true`, `fee_charged=terminal_fee`, and returns the
success outcome carrying the post-debit balance. -/
theorem entry_scan_success_spec (s : SystemSettings) (now : ℤ) (v staffId : ℕ)
    (st : DbState)
    (hout : firstByCreatedDesc (isActiveFor v) (scanMaintLogs s now st) = none)
    (hcool : ∀ r, firstByCreatedDesc (isSuccessFor v) (scanMaintLogs s now st) = some r →
        ¬(now - r.createdAt < s.entry_cooldown_minutes))
    (hmin : s.min_deposit_amount ≤ st.wallets v)
    (hfee : s.terminal_fee ≤ st.wallets v) :
    qr_scan_entry s now (some v) staffId st =
      ({ logs := scanMaintLogs s now st ++
            [newLogRow v staffId s.terminal_fee .success (enterMessage v) now st.nextId],
         wallets := fun w => if w = v then st.wallets v - s.terminal_fee else st.wallets w,
         nextId := st.nextId + 1 },
       .entered (st.wallets v - s.terminal_fee)) :=
  scan_entry_success_eq s now v staffId st hout hcool hmin hfee

/-- Witness for C4 at the spec's Scenario B numbers: balance 200, minimum
deposit 100, fee 50 — the scan succeeds, the balance becomes 150, and exactly
one active success row is created. -/
theorem entry_scan_success_spec_witness :
    (qr_scan_entry ⟨50, 100, 5, 30⟩ 0 (some 1) 7
        { logs := [], wallets := fun w => if w = 1 then 200 else 0, nextId := 0 }).1.wallets 1 =
      150 ∧
    (qr_scan_entry ⟨50, 100, 5, 30⟩ 0 (some 1) 7
        { logs := [], wallets := fun w => if w = 1 then 200 else 0, nextId := 0 }).2 =
      .entered 150 ∧
    (qr_scan_entry ⟨50, 100, 5, 30⟩ 0 (some 1) 7
        { logs := [], wallets := fun w => if w = 1 then 200 else 0, nextId := 0 }).1.logs =
      [newLogRow 1 7 50 .success (enterMessage 1) 0 0] := by
  have h := entry_scan_success_spec ⟨50, 100, 5, 30⟩ 0 1 7
      { logs := [], wallets := fun w => if w = 1 then 200 else 0, nextId := 0 }
      (by decide)
      (by
        intro r hr
        rw [(by decide : firstByCreatedDesc (isSuccessFor 1) (scanMaintLogs ⟨50, 100, 5, 30⟩ 0
            { logs := [], wallets := fun w => if w = 1 then 200 else 0, nextId := 0 }) =
          none)] at hr
        cases hr)
      (by decide) (by decide)
  rw [h]
  exact ⟨by decide, by decide, by decide⟩

/-- A single active success row, used as a concrete inside-the-terminal state. -/
def witnessActiveRow : EntryLog :=
  { logId := 0, vehicle := 1, staff := some 7, feeCharged := 50, status := .success,
    message := "in", createdAt := 0, isActive := true, departedAt := none }

/-- Claim C5: for every scan resolving to a vehicle that (after the opening
maintenance pass) has an active `EntryLog`, `qr_scan_entry` performs an exit: it
flips exactly that row to `is_active=false`, stamps `departed_at=now`, attaches
the departure message, creates no new row (the table length is unchanged),
charges no fee and leaves every wallet untouched, and returns success with the
current balance. -/
theorem exit_scan_spec (s : SystemSettings) (now : ℤ) (v staffId : ℕ) (st : DbState)
    (l : EntryLog)
    (hl : firstByCreatedDesc (isActiveFor v) (scanMaintLogs s now st) = some l) :
    qr_scan_entry s now (some v) staffId st =
      ({ st with
          logs := setDepartedById l.logId now (departMessage v) (scanMaintLogs s now st) },
       .departed (st.wallets v)) ∧
    { l with isActive := false, departedAt := some now, message := departMessage v } ∈
      (qr_scan_entry s now (some v) staffId st).1.logs ∧
    ((qr_scan_entry s now (some v) staffId st).1.logs).length =
      (scanMaintLogs s now st).length := by
  have heq : qr_scan_entry s now (some v) staffId st =
      ({ st with
          logs := setDepartedById l.logId now (departMessage v) (scanMaintLogs s now st) },
       .departed (st.wallets v)) := by
    simp only [qr_scan_entry, hl]
  refine ⟨heq, ?_, ?_⟩
  · rw [heq]
    show _ ∈ setDepartedById l.logId now (departMessage v) (scanMaintLogs s now st)
    have hmem := (firstByCreatedDesc_spec _ _ _ hl).1
    unfold setDepartedById
    refine List.mem_map.mpr ⟨l, hmem, ?_⟩
    rw [if_pos (by simp)]
  · rw [heq]
    show (setDepartedById l.logId now (departMessage v) (scanMaintLogs s now st)).length = _
    unfold setDepartedById
    exact List.length_map _ _

/-- Witness for C5: re-scanning a vehicle that is inside departs it — the row is
closed with `departed_at` stamped, and the balance stays 150. -/
theorem exit_scan_spec_witness :
    (qr_scan_entry ⟨50, 100, 5, 30⟩ 3 (some 1) 7
        { logs := [witnessActiveRow], wallets := fun _ => 150, nextId := 1 }).2 =
      .departed 150 ∧
    (qr_scan_entry ⟨50, 100, 5, 30⟩ 3 (some 1) 7
        { logs := [witnessActiveRow], wallets := fun _ => 150, nextId := 1 }).1.logs =
      [{ witnessActiveRow with isActive := false, departedAt := some 3, message := departMessage 1 }] := by
  have h := (exit_scan_spec ⟨50, 100, 5, 30⟩ 3 1 7
      { logs := [witnessActiveRow], wallets := fun _ => 150, nextId := 1 }
      witnessActiveRow (by decide)).1
  rw [h]
  exact ⟨by decide, by decide⟩

/-- Claim C6: for every entry scan of a vehicle that (after the opening
maintenance pass) has no active log but whose most recent successful entry is
younger than `entry_cooldown_minutes`, `qr_scan_entry` answers `CooldownActive`,
creates no `EntryLog` at all (in particular no active one — the vehicle has zero
active rows afterwards), and leaves every wallet balance unchanged. -/
theorem cooldown_scan_rejected_spec (s : SystemSettings) (now : ℤ) (v staffId : ℕ)
    (st : DbState) (r : EntryLog)
    (hout : firstByCreatedDesc (isActiveFor v) (scanMaintLogs s now st) = none)
    (hrec : firstByCreatedDesc (isSuccessFor v) (scanMaintLogs s now st) = some r)
    (hcool : now - r.createdAt < s.entry_cooldown_minutes) :
    qr_scan_entry s now (some v) staffId st =
      ({ st with logs := scanMaintLogs s now st }, .cooldownActive (st.wallets v)) ∧
    countActive v (qr_scan_entry s now (some v) staffId st).1.logs = 0 := by
  have heq : qr_scan_entry s now (some v) staffId st =
      ({ st with logs := scanMaintLogs s now st }, .cooldownActive (st.wallets v)) := by
    simp only [qr_scan_entry, hout, hrec, if_pos hcool]
  refine ⟨heq, ?_⟩
  rw [heq]
  show countActive v (scanMaintLogs s now st) = 0
  simp [countActive, (firstByCreatedDesc_eq_none_iff _ _).mp hout]

/-- A departed success row one minute old, used as a cooldown witness state. -/
def witnessDepartedRow : EntryLog :=
  { logId := 0, vehicle := 1, staff := some 7, feeCharged := 50, status := .success,
    message := "in", createdAt := 0, isActive := false, departedAt := some 1 }

/-- Witness for C6 at the spec's Scenario D numbers: a re-scan two minutes after
a successful entry with a five-minute cooldown is rejected without any new row
and with the balance unchanged. -/
theorem cooldown_scan_rejected_spec_witness :
    (qr_scan_entry ⟨50, 100, 5, 30⟩ 2 (some 1) 7
        { logs := [witnessDepartedRow], wallets := fun _ => 150, nextId := 1 }).2 =
      .cooldownActive 150 ∧
    (qr_scan_entry ⟨50, 100, 5, 30⟩ 2 (some 1) 7
        { logs := [witnessDepartedRow], wallets := fun _ => 150, nextId := 1 }).1.logs =
      [witnessDepartedRow] := by
  have h := (cooldown_scan_rejected_spec ⟨50, 100, 5, 30⟩ 2 1 7
      { logs := [witnessDepartedRow], wallets := fun _ => 150, nextId := 1 }
      witnessDepartedRow (by decide) (by decide) (by decide)).1
  rw [h]
  exact ⟨by decide, by decide⟩

/-- Number of `EntryLog` rows `qr_scan_entry` creates for a given response:
exactly one for the fee-step outcomes (`entered`, `insufficientBalance`), none
for every other response. -/
def newRowCount : ScanOutcome → ℕ
  | .entered _ => 1
  | .insufficientBalance _ => 1
  | _ => 0

theorem entryAttempt_logs_length (s : SystemSettings) (now : ℤ) (v staffId : ℕ)
    (st : DbState) :
    ((entryAttempt s now v staffId st).1.logs).length =
      st.logs.length + newRowCount (entryAttempt s now v staffId st).2 := by
  simp only [entryAttempt]
  split
  · simp [newRowCount]
  · split
    · simp [newRowCount]
    · simp [newRowCount]

/-- Claim C7 (amended): `qr_scan_entry` creates an `EntryLog` row only when the
scan reaches the fee step — exactly one row for a successful entry and exactly
one for an insufficient-balance entry; scans failing with an unrecognized
token, a cooldown rejection or a below-minimum-balance rejection, as well as
exit scans, create no row at all (the table keeps exactly the rows left by the
opening maintenance pass). -/
theorem scan_log_row_only_on_fee_outcomes (s : SystemSettings) (now : ℤ)
    (veh : Option ℕ) (staffId : ℕ) (st : DbState) :
    ((qr_scan_entry s now veh staffId st).1.logs).length =
      (scanMaintLogs s now st).length +
        newRowCount (qr_scan_entry s now veh staffId st).2 := by
  cases veh with
  | none => simp [qr_scan_entry, newRowCount]
  | some v =>
    simp only [qr_scan_entry]
    cases hact : firstByCreatedDesc (isActiveFor v) (scanMaintLogs s now st) with
    | some a =>
      simp only [hact]
      show (setDepartedById a.logId now (departMessage v) (scanMaintLogs s now st)).length =
        (scanMaintLogs s now st).length + newRowCount (.departed (st.wallets v))
      simp [setDepartedById, newRowCount]
    | none =>
      cases hrec : firstByCreatedDesc (isSuccessFor v) (scanMaintLogs s now st) with
      | some r =>
        simp only [hact, hrec]
        by_cases hc : now - r.createdAt < s.entry_cooldown_minutes
        · rw [if_pos hc]
          simp [newRowCount]
        · rw [if_neg hc]
          exact entryAttempt_logs_length s now v staffId
            { st with logs := scanMaintLogs s now st }
      | none =>
        simp only [hact, hrec]
        exact entryAttempt_logs_length s now v staffId
          { st with logs := scanMaintLogs s now st }

/-- Claim C7 counterexample: two failing scan attempts — an unrecognized token
and a below-minimum-balance rejection (balance 0, minimum 100) — are processed
by `qr_scan_entry` without creating any `EntryLog` row: the table stays empty,
contradicting "an EntryLog row is created on every scan attempt". -/
theorem scan_without_log_row_cex :
    ((qr_scan_entry ⟨50, 100, 5, 30⟩ 0 none 7 initState).1.logs).length = 0 ∧
    (qr_scan_entry ⟨50, 100, 5, 30⟩ 0 none 7 initState).2 = .invalidToken ∧
    ((qr_scan_entry ⟨50, 100, 5, 30⟩ 0 (some 1) 7 initState).1.logs).length = 0 ∧
    (qr_scan_entry ⟨50, 100, 5, 30⟩ 0 (some 1) 7 initState).2 = .belowMinimum 0 := by
  decide

/-- State exercising the insufficient branch: empty table, balance 20, with
settings fee 50 and minimum deposit 10 (so the minimum check passes and the fee
check fails). -/
def insufficientCexState : DbState :=
  { logs := [], wallets := fun w => if w = 1 then 20 else 0, nextId := 0 }

/-- Claim C2 evidence: at a concrete insufficient-balance entry scan (fee 50,
minimum deposit 10, balance 20), `qr_scan_entry` creates one row with
`status=insufficient` and `fee_charged=50`, leaves the balance at 20, and
returns the insufficient-balance outcome — but the row has `is_active = true`
(the model default, since `EntryLog.objects.create` passes no `is_active`),
not `is_active = false` as the claim and spec state. -/
theorem insufficient_scan_row_left_active :
    (qr_scan_entry ⟨50, 10, 5, 30⟩ 0 (some 1) 7 insufficientCexState).1.logs =
      [newLogRow 1 7 50 .insufficient (insufficientMessage 1) 0 0] ∧
    (newLogRow 1 7 50 .insufficient (insufficientMessage 1) 0 0).status = .insufficient ∧
    (newLogRow 1 7 50 .insufficient (insufficientMessage 1) 0 0).feeCharged = 50 ∧
    (newLogRow 1 7 50 .insufficient (insufficientMessage 1) 0 0).isActive = true ∧
    (qr_scan_entry ⟨50, 10, 5, 30⟩ 0 (some 1) 7 insufficientCexState).1.wallets 1 = 20 ∧
    (qr_scan_entry ⟨50, 10, 5, 30⟩ 0 (some 1) 7 insufficientCexState).2 =
      .insufficientBalance 20 := by
  decide

/-- Claim C10: `Deposit.save` credits the wallet by exactly the deposited
amount (stated for every positive amount), and the credit-then-debit round trip
is the identity on the balance: crediting 100 and then running an entry scan
with `terminal_fee = 100` whose preconditions hold (no active log, cooldown
lapsed, both balance thresholds met, all in the post-credit state) returns the
balance to its pre-credit value. -/
theorem credit_exact_and_round_trip :
    (∀ (st : DbState) (v : ℕ) (amount : ℤ), 0 < amount →
        (depositSave v amount st).wallets v = st.wallets v + amount) ∧
    (∀ (s : SystemSettings) (now : ℤ) (v staffId : ℕ) (st : DbState),
        s.terminal_fee = 100 →
        firstByCreatedDesc (isActiveFor v) (scanMaintLogs s now (depositSave v 100 st)) =
          none →
        (∀ r, firstByCreatedDesc (isSuccessFor v)
              (scanMaintLogs s now (depositSave v 100 st)) = some r →
            ¬(now - r.createdAt < s.entry_cooldown_minutes)) →
        s.min_deposit_amount ≤ (depositSave v 100 st).wallets v →
        s.terminal_fee ≤ (depositSave v 100 st).wallets v →
        (qr_scan_entry s now (some v) staffId (depositSave v 100 st)).1.wallets v =
          st.wallets v) := by
  constructor
  · intro st v amount hpos
    simp [depositSave]
  · intro s now v staffId st hfee100 hout hcool hmin hfee
    rw [scan_entry_success_eq s now v staffId (depositSave v 100 st) hout hcool hmin hfee]
    show (if v = v then (depositSave v 100 st).wallets v - s.terminal_fee
      else (depositSave v 100 st).wallets v) = st.wallets v
    rw [if_pos rfl, hfee100]
    simp [depositSave]

/-- Witness for C10: from a zero wallet, crediting 100 yields balance 100, and
the subsequent successful entry scan with fee 100 returns the balance to 0, its
pre-credit value. -/
theorem credit_exact_and_round_trip_witness :
    (depositSave 1 100 initState).wallets 1 = 0 + 100 ∧
    (qr_scan_entry ⟨100, 100, 5, 30⟩ 0 (some 1) 7 (depositSave 1 100 initState)).1.wallets 1 =
      initState.wallets 1 := by
  constructor
  · exact credit_exact_and_round_trip.1 initState 1 100 (by decide)
  · refine credit_exact_and_round_trip.2 ⟨100, 100, 5, 30⟩ 0 1 7 initState rfl (by decide)
      ?_ (by decide) (by decide)
    intro r hr
    rw [(by decide : firstByCreatedDesc (isSuccessFor 1)
        (scanMaintLogs ⟨100, 100, 5, 30⟩ 0 (depositSave 1 100 initState)) = none)] at hr
    cases hr

end TicketNow
